import Mathlib

/-!
Verification of the roulette animation and selection engine of the
`dota-roulette` repository (`src/components/HeroRoulette.tsx`).

Shallow embedding conventions:
* JavaScript numbers are modelled as exact rationals (`ℚ`); the integer
  quantities the code produces with `Math.floor` are modelled as `ℤ`/`ℕ`
  through `Int.floor`.
* `Math.random()` outputs are modelled as rational parameters `u` with the
  contract `0 ≤ u < 1`; the per-step random indices of the Fisher–Yates
  shuffle are modelled as a function `jf : ℕ → ℕ`.
* React state and refs (`isSpinningRef`, `selectedHero`,
  `animationFrameRef`, `virtualOffsetRef`) become explicit inputs and
  outputs of the pure functions `spinRoulette`, `stepFrame` and
  `resetRoulette`; `requestAnimationFrame` scheduling is reflected by the
  `scheduled` field of a spin outcome and the `done` flag of a frame step.
* The JavaScript `%` operator (truncated remainder, sign of the dividend)
  is modelled by `jsRem` on `ℚ` and `Int.tmod` on `ℤ`.
-/

/-- Constant `BASE_SPIN_DURATION = 8200` from HeroRoulette.tsx. -/
def BASE_SPIN_DURATION : ℚ := 8200

/-- Constant `SPIN_DURATION_PER_LOOP = 1800` from HeroRoulette.tsx. -/
def SPIN_DURATION_PER_LOOP : ℚ := 1800

/-- Constant `REPEAT_COUNT = 6` from HeroRoulette.tsx. -/
def REPEAT_COUNT : ℕ := 6

/-- In the component, `middleRepeatIndex = Math.floor(REPEAT_COUNT / 2)`. -/
def middleRepeatIndex : ℕ := REPEAT_COUNT / 2

/-- Truncation toward zero, as JavaScript division underlying `%` does. -/
def jsTrunc (q : ℚ) : ℤ := if 0 ≤ q then ⌊q⌋ else ⌈q⌉

/-- The JavaScript `%` operator on numbers: remainder with the sign of the
dividend (`x % y = x - y * trunc (x / y)`). -/
def jsRem (x y : ℚ) : ℚ := x - y * jsTrunc (x / y)

/-- The sub-expression `((rawOffset % loopWidth) + loopWidth) % loopWidth`
of `applyVisualOffset` in HeroRoulette.tsx. -/
def offsetWithinLoop (loopWidth rawOffset : ℚ) : ℚ :=
  jsRem (jsRem rawOffset loopWidth + loopWidth) loopWidth

/-- The pure computation of `applyVisualOffset` in HeroRoulette.tsx: the
visual offset written into the strip transform for a given raw offset.
`m` stands for the captured `middleRepeatIndex`.  When `slotWidth` or
`baseLength` is zero the code applies `rawOffset` unchanged. -/
def applyVisualOffset (slotWidth : ℚ) (baseLength m : ℕ) (rawOffset : ℚ) : ℚ :=
  if slotWidth = 0 ∨ baseLength = 0 then rawOffset
  else
    let loopWidth : ℚ := (baseLength : ℚ) * slotWidth
    offsetWithinLoop loopWidth rawOffset - (m : ℚ) * loopWidth

/-- The easing function `mapProgressToDistance` of HeroRoulette.tsx
(quintic ease-in-out with clamping of out-of-range inputs). -/
def mapProgressToDistance (progress : ℚ) : ℚ :=
  if progress ≤ 0 then 0
  else if 1 ≤ progress then 1
  else
    let clamped := min (max progress 0) 1
    if clamped < 1/2 then 16 * clamped ^ 5
    else
      let mirrored := -2 * clamped + 2
      1 - mirrored ^ 5 / 2

/-- The `const speedRatio = Math.max(0.05, 1 - progress)` computation of the
frame step in `spinRoulette`. -/
def tickSpeed (progress : ℚ) : ℚ := max (1/20) (1 - progress)

theorem jsRem_key (x L : ℚ) (hL : 0 < L) :
    offsetWithinLoop L x = L * Int.fract (x / L) := by
  have hL0 : L ≠ 0 := ne_of_gt hL
  set q : ℚ := x / L with hq
  have hx : x = L * q := by
    field_simp [hq]
  have hfr : Int.fract q = q - (⌊q⌋ : ℚ) := (Int.self_sub_floor q).symm
  have hr : jsRem x L = L * Int.fract q ∨ jsRem x L = L * (Int.fract q - 1) := by
    unfold jsRem jsTrunc
    rw [← hq]
    by_cases h0 : 0 ≤ q
    · left
      rw [if_pos h0, hfr, hx]
      ring
    · rcases Int.fract_eq_zero_or_add_one_sub_ceil q with hf | hf
      · left
        have hqint : q = (⌊q⌋ : ℚ) := by
          rw [hfr] at hf
          linarith
        rw [if_neg h0, hf, mul_zero]
        have hceil : ⌈q⌉ = ⌊q⌋ := by
          rw [hqint, Int.ceil_intCast, Int.floor_intCast]
        rw [hceil, ← hqint, hx]
        ring
      · right
        rw [if_neg h0, hx, hf]
        ring
  have hdone : ∀ r : ℚ, jsRem x L = r → jsRem (r + L) L = L * Int.fract q := by
    intro r hrdef
    rcases hr with h | h <;> rw [hrdef] at h <;> subst h
    · unfold jsRem jsTrunc
      have hdiv : (L * Int.fract q + L) / L = Int.fract q + 1 := by
        field_simp
        ring
      have hpos : (0:ℚ) ≤ Int.fract q + 1 := by
        have := Int.fract_nonneg q
        linarith
      rw [hdiv, if_pos hpos, Int.floor_add_one, Int.floor_fract]
      push_cast
      ring
    · unfold jsRem jsTrunc
      have hA : L * (Int.fract q - 1) + L = L * Int.fract q := by ring
      rw [hA]
      have hdiv : L * Int.fract q / L = Int.fract q := by
        field_simp
      have hpos : (0:ℚ) ≤ Int.fract q := Int.fract_nonneg q
      rw [hdiv, if_pos hpos, Int.floor_fract]
      push_cast
      ring
  unfold offsetWithinLoop
  exact hdone _ rfl

theorem offsetWithinLoop_nonneg (x L : ℚ) (hL : 0 < L) :
    0 ≤ offsetWithinLoop L x := by
  rw [jsRem_key x L hL]
  exact mul_nonneg (le_of_lt hL) (Int.fract_nonneg _)

theorem offsetWithinLoop_lt (x L : ℚ) (hL : 0 < L) :
    offsetWithinLoop L x < L := by
  rw [jsRem_key x L hL]
  calc L * Int.fract (x / L) < L * 1 :=
        (mul_lt_mul_left hL).mpr (Int.fract_lt_one _)
    _ = L := mul_one L

theorem offsetWithinLoop_period (x L : ℚ) (hL : 0 < L) :
    offsetWithinLoop L (x + L) = offsetWithinLoop L x := by
  rw [jsRem_key _ L hL, jsRem_key x L hL]
  have hL0 : L ≠ 0 := ne_of_gt hL
  have : (x + L) / L = x / L + 1 := by
    field_simp
  rw [this, Int.fract_add_one]

theorem ease_eq_quintic_in (p : ℚ) (h0 : 0 ≤ p) (h1 : p < 1/2) :
    mapProgressToDistance p = 16 * p ^ 5 := by
  unfold mapProgressToDistance
  rcases eq_or_lt_of_le h0 with h | h
  · rw [if_pos (le_of_eq h.symm)]
    rw [← h]
    norm_num
  · rw [if_neg (not_le.mpr h), if_neg (by linarith : ¬ (1:ℚ) ≤ p)]
    have hc : min (max p 0) 1 = p := by
      rw [max_eq_left h0, min_eq_left (by linarith : p ≤ 1)]
    simp only [hc]
    rw [if_pos h1]

theorem ease_eq_quintic_out (p : ℚ) (h0 : 1/2 ≤ p) (h1 : p ≤ 1) :
    mapProgressToDistance p = 1 - (-2 * p + 2) ^ 5 / 2 := by
  unfold mapProgressToDistance
  rcases eq_or_lt_of_le h1 with h | h
  · rw [if_neg (by linarith : ¬ p ≤ 0), if_pos (le_of_eq h.symm)]
    rw [h]
    norm_num
  · rw [if_neg (by linarith : ¬ p ≤ 0), if_neg (not_le.mpr h)]
    have hc : min (max p 0) 1 = p := by
      rw [max_eq_left (by linarith : (0:ℚ) ≤ p), min_eq_left (le_of_lt h)]
    simp only [hc]
    rw [if_neg (not_lt.mpr h0)]

theorem ease_mem_unit (p : ℚ) :
    0 ≤ mapProgressToDistance p ∧ mapProgressToDistance p ≤ 1 := by
  by_cases hp0 : p ≤ 0
  · unfold mapProgressToDistance
    rw [if_pos hp0]
    norm_num
  · by_cases hp1 : 1 ≤ p
    · unfold mapProgressToDistance
      rw [if_neg hp0, if_pos hp1]
      norm_num
    · push_neg at hp0 hp1
      by_cases hhalf : p < 1/2
      · rw [ease_eq_quintic_in p (le_of_lt hp0) hhalf]
        constructor
        · positivity
        · have h5 : p ^ 5 ≤ (1/2 : ℚ) ^ 5 :=
            pow_le_pow_left₀ (le_of_lt hp0) (le_of_lt hhalf) 5
          nlinarith
      · push_neg at hhalf
        rw [ease_eq_quintic_out p hhalf (le_of_lt hp1)]
        have hm0 : (0:ℚ) ≤ -2 * p + 2 := by linarith
        have hm1 : -2 * p + 2 ≤ 1 := by linarith
        have h5a : (0:ℚ) ≤ (-2 * p + 2) ^ 5 := pow_nonneg hm0 5
        have h5b : (-2 * p + 2) ^ 5 ≤ 1 := pow_le_one₀ hm0 hm1
        constructor <;> nlinarith

theorem ease_mono (p q : ℚ) (h0 : 0 ≤ p) (hpq : p ≤ q) (h1 : q ≤ 1) :
    mapProgressToDistance p ≤ mapProgressToDistance q := by
  have hq0 : 0 ≤ q := le_trans h0 hpq
  have hp1 : p ≤ 1 := le_trans hpq h1
  by_cases hqh : q < 1/2
  · have hph : p < 1/2 := lt_of_le_of_lt hpq hqh
    rw [ease_eq_quintic_in p h0 hph, ease_eq_quintic_in q hq0 hqh]
    have h5 : p ^ 5 ≤ q ^ 5 := pow_le_pow_left₀ h0 hpq 5
    linarith
  · push_neg at hqh
    have hqB : mapProgressToDistance q = 1 - (-2 * q + 2) ^ 5 / 2 :=
      ease_eq_quintic_out q hqh h1
    have hqge : (1/2 : ℚ) ≤ mapProgressToDistance q := by
      rw [hqB]
      have hm0 : (0:ℚ) ≤ -2 * q + 2 := by linarith
      have hm1 : -2 * q + 2 ≤ 1 := by linarith
      have h5b : (-2 * q + 2) ^ 5 ≤ 1 := pow_le_one₀ hm0 hm1
      linarith
    by_cases hph : p < 1/2
    · have hle : mapProgressToDistance p ≤ 1/2 := by
        rw [ease_eq_quintic_in p h0 hph]
        have h5 : p ^ 5 ≤ (1/2 : ℚ) ^ 5 := pow_le_pow_left₀ h0 (le_of_lt hph) 5
        nlinarith
      linarith
    · push_neg at hph
      rw [ease_eq_quintic_out p hph hp1, hqB]
      have hm0 : (0:ℚ) ≤ -2 * q + 2 := by linarith
      have h5 : (-2 * q + 2) ^ 5 ≤ (-2 * p + 2) ^ 5 :=
        pow_le_pow_left₀ hm0 (by linarith) 5
      linarith

/-- The destructuring swap `[array[i], array[j]] = [array[j], array[i]]`
performed inside `shuffleList` of HeroRoulette.tsx (its indices are always
in range there; out-of-range indices leave the list unchanged). -/
def swapIdx {H : Type} (l : List H) (i j : ℕ) : List H :=
  if h : i < l.length ∧ j < l.length then
    (l.set i (l.get ⟨j, h.2⟩)).set j (l.get ⟨i, h.1⟩)
  else l

/-- The loop `for (let i = array.length - 1; i > 0; i -= 1)` of
`shuffleList`: processes positions `i, i-1, ..., 1`, swapping position `k`
with position `jf k` (the model of `Math.floor(Math.random() * (k + 1))`). -/
def fyLoop {H : Type} (jf : ℕ → ℕ) : ℕ → List H → List H
  | 0, l => l
  | Nat.succ i, l => fyLoop jf i (swapIdx l (i + 1) (jf (i + 1)))

/-- The `shuffleList` helper of HeroRoulette.tsx (Fisher–Yates over a copy
of the source list, with the random draws abstracted into `jf`). -/
def shuffleList {H : Type} (jf : ℕ → ℕ) (source : List H) : List H :=
  fyLoop jf (source.length - 1) source

/-- The expression `activeHeroes.length > 0 ? activeHeroes : heroes` used
by the pool-rebuild effect, `spinRoulette` and `resetRoulette`. -/
def rebuildPoolSource {H : Type} (activeHeroes heroes : List H) : List H :=
  if activeHeroes.length > 0 then activeHeroes else heroes

/-- The random-index selection of `spinRoulette`, lines 625-629: a uniform
draw `Math.floor(u1 * count)`, rerolled to `1 + Math.floor(u3 * (count-1))`
when the pool has more than one element, the first draw hit zero, and the
reroll draw `u2` fell below 0.35. -/
def pickRandomIndex (count : ℕ) (u1 u2 u3 : ℚ) : ℕ :=
  if 1 < count ∧ (⌊u1 * (count : ℚ)⌋).toNat = 0 ∧ u2 < 35/100 then
    1 + (⌊u3 * ((count : ℚ) - 1)⌋).toNat
  else (⌊u1 * (count : ℚ)⌋).toNat

/-- The data captured by the frame closure that `spinRoulette` schedules:
the freshly shuffled working pool and the derived spin geometry. -/
structure SpinSetup (H : Type) where
  pool : List H
  randomIndex : ℕ
  extraLoops : ℕ
  startOffset : ℚ
  finalOffset : ℚ
  spinDuration : ℚ
  slotWidth : ℚ
  deriving DecidableEq

/-- Observable result of the synchronous part of a `spinRoulette` call:
the spinning flag, the published winner (`selectedHero`), whether a pending
frame callback was cancelled, and the scheduled frame closure (if any). -/
structure SpinOutcome (H : Type) where
  spinning : Bool
  winner : Option H
  canceledPending : Bool
  scheduled : Option (SpinSetup H)
  deriving DecidableEq

/-- The synchronous part of `spinRoulette` in HeroRoulette.tsx.
`spinningBefore` is `isSpinningRef.current`, `winnerBefore` the current
`selectedHero`, `pendingFrame` whether `animationFrameRef.current` holds a
pending callback; `u1 u2 u3` model the `Math.random()` draws for index
selection, `uLoops` the draw for `extraLoops`, and `jf` the draws of the
Fisher–Yates shuffle. -/
def spinRoulette {H : Type} (spinningBefore : Bool) (winnerBefore : Option H)
    (pendingFrame : Bool) (activeHeroes heroes : List H) (slotWidth : ℚ)
    (jf : ℕ → ℕ) (u1 u2 u3 uLoops : ℚ) : SpinOutcome H :=
  if spinningBefore then
    { spinning := true, winner := winnerBefore, canceledPending := false,
      scheduled := none }
  else
    let availableHeroes := rebuildPoolSource activeHeroes heroes
    let shuffledHeroes := shuffleList jf availableHeroes
    let availableCount := shuffledHeroes.length
    if availableCount = 0 then
      { spinning := false, winner := none, canceledPending := pendingFrame,
        scheduled := none }
    else
      let randomIndex := pickRandomIndex availableCount u1 u2 u3
      let startOffset : ℚ :=
        -(((middleRepeatIndex * availableCount : ℕ) : ℚ) * slotWidth)
      let baselineIndex := middleRepeatIndex * availableCount
      let extraLoops := 2 + (⌊uLoops * 4⌋).toNat
      let spinDuration :=
        BASE_SPIN_DURATION + (extraLoops : ℚ) * SPIN_DURATION_PER_LOOP
      let targetIndex := baselineIndex + extraLoops * availableCount + randomIndex
      let finalOffset : ℚ := -((targetIndex : ℚ) * slotWidth)
      { spinning := true, winner := none, canceledPending := pendingFrame,
        scheduled := some { pool := shuffledHeroes, randomIndex := randomIndex,
                            extraLoops := extraLoops, startOffset := startOffset,
                            finalOffset := finalOffset, spinDuration := spinDuration,
                            slotWidth := slotWidth } }

/-- The `safeHeroCount = Math.max(activeHeroCount, 1)` computation. -/
def safeHeroCount (activeCount : ℕ) : ℕ := max activeCount 1

/-- The resting position `initialOffset` of the component. -/
def initialOffset (activeCount : ℕ) (slotWidth : ℚ) : ℚ :=
  -(((middleRepeatIndex * safeHeroCount activeCount : ℕ) : ℚ) * slotWidth)

/-- Observable result of `resetRoulette`: cleared winner, re-shuffled base
pool, and the raw offset snapped back to the resting position. -/
structure ResetOutcome (H : Type) where
  winner : Option H
  basePool : List H
  rawOffset : ℚ

/-- The `resetRoulette` handler of HeroRoulette.tsx. -/
def resetRoulette {H : Type} (activeHeroes heroes : List H) (jf : ℕ → ℕ)
    (slotWidth : ℚ) : ResetOutcome H :=
  let sourceHeroes := rebuildPoolSource activeHeroes heroes
  let shuffled := shuffleList jf sourceHeroes
  { winner := none, basePool := shuffled,
    rawOffset := initialOffset activeHeroes.length slotWidth }

/-- The tick-sound decision of the frame `step` closure (lines 659-667):
the tick fired this frame (with the speed ratio passed to `playTickSound`)
and the updated `lastHeroIndex`. -/
def frameTick (slotWidth : ℚ) (baseLength : ℕ) (lastHeroIndex : ℤ)
    (currentOffset progress : ℚ) : Option ℚ × ℤ :=
  if 0 < slotWidth ∧ 0 < baseLength then
    let rawIndex : ℤ := ⌊-currentOffset / slotWidth⌋
    let heroIndex := (rawIndex.tmod (baseLength : ℤ) + baseLength).tmod (baseLength : ℤ)
    if heroIndex ≠ lastHeroIndex then (some (tickSpeed progress), heroIndex)
    else (none, lastHeroIndex)
  else (none, lastHeroIndex)

/-- Observable result of one invocation of the `step` frame callback:
the raw offset last passed to `applyVisualOffset`, the tick fired (if any),
the updated `lastHeroIndex`, whether the loop stopped (`done = true` means
no further frame is requested), the spinning flag, and the winner published
this frame. -/
structure FrameResult (H : Type) where
  rawOffset : ℚ
  tick : Option ℚ
  lastHeroIndex : ℤ
  done : Bool
  spinning : Bool
  winner : Option H
  deriving DecidableEq

/-- One invocation of the `step` frame callback of `spinRoulette`, with the
timestamp bookkeeping folded into `elapsed = timestamp - animationStart`. -/
def stepFrame {H : Type} (s : SpinSetup H) (lastHeroIndex : ℤ) (elapsed : ℚ) :
    FrameResult H :=
  let progress := min (elapsed / s.spinDuration) 1
  let easedProgress := mapProgressToDistance progress
  let currentOffset := s.startOffset + (s.finalOffset - s.startOffset) * easedProgress
  let t := frameTick s.slotWidth s.pool.length lastHeroIndex currentOffset progress
  if progress < 1 then
    { rawOffset := currentOffset, tick := t.1, lastHeroIndex := t.2,
      done := false, spinning := true, winner := none }
  else
    { rawOffset := s.finalOffset, tick := t.1, lastHeroIndex := t.2,
      done := true, spinning := false, winner := s.pool.get? s.randomIndex }

theorem swapIdx_length {H : Type} (l : List H) (i j : ℕ) :
    (swapIdx l i j).length = l.length := by
  unfold swapIdx
  split <;> simp

theorem swapIdx_mem {H : Type} (l : List H) (i j : ℕ) (x : H)
    (hx : x ∈ swapIdx l i j) : x ∈ l := by
  unfold swapIdx at hx
  split at hx
  · rename_i h
    rcases List.mem_or_eq_of_mem_set hx with hx2 | hx2
    · rcases List.mem_or_eq_of_mem_set hx2 with hx3 | hx3
      · exact hx3
      · exact hx3 ▸ List.get_mem l _ _
    · exact hx2 ▸ List.get_mem l _ _
  · exact hx

theorem fyLoop_length {H : Type} (jf : ℕ → ℕ) (k : ℕ) (l : List H) :
    (fyLoop jf k l).length = l.length := by
  induction k generalizing l with
  | zero => rfl
  | succ i ih =>
    unfold fyLoop
    rw [ih, swapIdx_length]

theorem fyLoop_mem {H : Type} (jf : ℕ → ℕ) (k : ℕ) (l : List H) (x : H)
    (hx : x ∈ fyLoop jf k l) : x ∈ l := by
  induction k generalizing l with
  | zero => exact hx
  | succ i ih =>
    unfold fyLoop at hx
    exact swapIdx_mem _ _ _ _ (ih _ hx)

theorem shuffleList_length {H : Type} (jf : ℕ → ℕ) (source : List H) :
    (shuffleList jf source).length = source.length :=
  fyLoop_length jf _ source

theorem shuffleList_mem {H : Type} (jf : ℕ → ℕ) (source : List H) (x : H)
    (hx : x ∈ shuffleList jf source) : x ∈ source :=
  fyLoop_mem jf _ source x hx

theorem shuffleList_singleton {H : Type} (jf : ℕ → ℕ) (h : H) :
    shuffleList jf [h] = [h] := rfl

theorem pickRandomIndex_lt (count : ℕ) (u1 u2 u3 : ℚ) (hc : 0 < count)
    (h10 : 0 ≤ u1) (h11 : u1 < 1) (h30 : 0 ≤ u3) (h31 : u3 < 1) :
    pickRandomIndex count u1 u2 u3 < count := by
  unfold pickRandomIndex
  split
  · rename_i h
    have h2 : (1:ℕ) < count := h.1
    have hcc : (1:ℚ) < (count:ℚ) := by exact_mod_cast h2
    have hb : (0:ℚ) < (count:ℚ) - 1 := by linarith
    have hlt : ⌊u3 * ((count : ℚ) - 1)⌋ < (count : ℤ) - 1 := by
      rw [Int.floor_lt]
      push_cast
      nlinarith
    have hge : 0 ≤ ⌊u3 * ((count : ℚ) - 1)⌋ := by
      apply Int.floor_nonneg.mpr
      nlinarith
    omega
  · have hcq : (0:ℚ) < (count:ℚ) := by exact_mod_cast hc
    have hlt : ⌊u1 * (count : ℚ)⌋ < (count : ℤ) := by
      rw [Int.floor_lt]
      push_cast
      nlinarith
    have hge : 0 ≤ ⌊u1 * (count : ℚ)⌋ := by
      apply Int.floor_nonneg.mpr
      positivity
    omega

theorem pickRandomIndex_one (u1 u2 u3 : ℚ) (h10 : 0 ≤ u1) (h11 : u1 < 1) :
    pickRandomIndex 1 u1 u2 u3 = 0 := by
  unfold pickRandomIndex
  have h0 : ⌊u1⌋ = 0 := by
    rw [Int.floor_eq_zero_iff]
    exact Set.mem_Ico.mpr ⟨h10, h11⟩
  split
  · rename_i h
    exact absurd h.1 (by norm_num)
  · simp [h0]

theorem pickRandomIndex_reroll (count : ℕ) (u1 u2 u3 : ℚ)
    (h2 : 1 < count) (hz : (⌊u1 * (count : ℚ)⌋).toNat = 0) (hp : u2 < 35/100) :
    1 ≤ pickRandomIndex count u1 u2 u3 := by
  unfold pickRandomIndex
  rw [if_pos ⟨h2, hz, hp⟩]
  omega

theorem spinRoulette_scheduled_spec {H : Type} (wb : Option H) (pf : Bool)
    (activeHeroes heroes : List H) (w : ℚ) (jf : ℕ → ℕ) (u1 u2 u3 uL : ℚ)
    (s : SpinSetup H)
    (hs : (spinRoulette false wb pf activeHeroes heroes w jf u1 u2 u3 uL).scheduled
            = some s) :
    s.pool = shuffleList jf (rebuildPoolSource activeHeroes heroes) ∧
    0 < s.pool.length ∧
    s.randomIndex = pickRandomIndex s.pool.length u1 u2 u3 ∧
    s.extraLoops = 2 + (⌊uL * 4⌋).toNat ∧
    s.spinDuration = BASE_SPIN_DURATION + (s.extraLoops : ℚ) * SPIN_DURATION_PER_LOOP ∧
    s.slotWidth = w ∧
    s.startOffset = -(((middleRepeatIndex * s.pool.length : ℕ) : ℚ) * w) ∧
    s.finalOffset = -(((middleRepeatIndex * s.pool.length + s.extraLoops * s.pool.length
        + s.randomIndex : ℕ) : ℚ) * w) := by
  simp only [spinRoulette] at hs
  rw [if_neg (by simp)] at hs
  split at hs
  · simp at hs
  · rename_i hcnt
    simp only [Option.some.injEq] at hs
    subst hs
    exact ⟨rfl, Nat.pos_of_ne_zero hcnt, rfl, rfl, rfl, rfl, rfl, rfl⟩

theorem applyVisualOffset_pos (slotWidth : ℚ) (baseLength m : ℕ)
    (rawOffset : ℚ) (hw : 0 < slotWidth) (hb : 0 < baseLength) :
    applyVisualOffset slotWidth baseLength m rawOffset =
      offsetWithinLoop ((baseLength : ℚ) * slotWidth) rawOffset
        - (m : ℚ) * ((baseLength : ℚ) * slotWidth) := by
  unfold applyVisualOffset
  rw [if_neg]
  push_neg
  exact ⟨ne_of_gt hw, Nat.pos_iff_ne_zero.mp hb⟩

theorem loopWidth_pos (slotWidth : ℚ) (baseLength : ℕ)
    (hw : 0 < slotWidth) (hb : 0 < baseLength) :
    0 < (baseLength : ℚ) * slotWidth := by
  have : (0:ℚ) < (baseLength : ℚ) := by exact_mod_cast hb
  positivity

/-- C5: for slotWidth > 0 and baseLength > 0, the offset normalizer's
`offsetWithinLoop = ((rawOffset % loopWidth) + loopWidth) % loopWidth` is
non-negative for every raw offset (negative ones included), the resulting
visual offset is periodic in the raw offset with period
`loopWidth = baseLength * slotWidth`, and re-applying the normalizer at the
same raw offset yields the same visual offset (determinism). -/
theorem C5_offset_normalizer (slotWidth : ℚ) (baseLength m : ℕ) (rawOffset : ℚ)
    (hw : 0 < slotWidth) (hb : 0 < baseLength) :
    0 ≤ offsetWithinLoop ((baseLength : ℚ) * slotWidth) rawOffset ∧
    applyVisualOffset slotWidth baseLength m
        (rawOffset + (baseLength : ℚ) * slotWidth)
      = applyVisualOffset slotWidth baseLength m rawOffset ∧
    applyVisualOffset slotWidth baseLength m rawOffset
      = applyVisualOffset slotWidth baseLength m rawOffset := by
  have hL : 0 < (baseLength : ℚ) * slotWidth := loopWidth_pos _ _ hw hb
  refine ⟨offsetWithinLoop_nonneg _ _ hL, ?_, rfl⟩
  rw [applyVisualOffset_pos _ _ _ _ hw hb, applyVisualOffset_pos _ _ _ _ hw hb,
    offsetWithinLoop_period _ _ hL]

/-- Witness for C5 at slotWidth = 2, baseLength = 3, m = 3, rawOffset = -100. -/
theorem C5_offset_normalizer_witness :
    0 ≤ offsetWithinLoop (((3:ℕ) : ℚ) * 2) (-100) ∧
    applyVisualOffset 2 3 3 (-100 + ((3:ℕ) : ℚ) * 2) = applyVisualOffset 2 3 3 (-100) ∧
    applyVisualOffset 2 3 3 (-100) = applyVisualOffset 2 3 3 (-100) :=
  C5_offset_normalizer 2 3 3 (-100) (by norm_num) (by norm_num)

/-- C8: when slotWidth or baseLength is zero, the offset normalizer applies
the raw offset directly — no modular arithmetic, no division by zero, no
error (the function is total). -/
theorem C8_degraded_fallback (slotWidth : ℚ) (baseLength m : ℕ) (rawOffset : ℚ)
    (h : slotWidth = 0 ∨ baseLength = 0) :
    applyVisualOffset slotWidth baseLength m rawOffset = rawOffset := by
  unfold applyVisualOffset
  rw [if_pos h]

/-- Witness for C8 at slotWidth = 0. -/
theorem C8_degraded_fallback_witness :
    applyVisualOffset 0 3 3 (-250) = -250 :=
  C8_degraded_fallback 0 3 3 (-250) (Or.inl rfl)

/-- C10: with positive slot width and base length, the normalized visual
offset always lies in the half-open window
`[-m*loopWidth, -(m-1)*loopWidth)` — the viewport stays inside the middle
repetition of the looped strip no matter how many loop lengths the raw
offset traversed. -/
theorem C10_middle_repetition (slotWidth : ℚ) (baseLength m : ℕ) (rawOffset : ℚ)
    (hw : 0 < slotWidth) (hb : 0 < baseLength) :
    -((m : ℚ) * ((baseLength : ℚ) * slotWidth))
        ≤ applyVisualOffset slotWidth baseLength m rawOffset ∧
    applyVisualOffset slotWidth baseLength m rawOffset
        < -(((m : ℚ) - 1) * ((baseLength : ℚ) * slotWidth)) := by
  have hL : 0 < (baseLength : ℚ) * slotWidth := loopWidth_pos _ _ hw hb
  rw [applyVisualOffset_pos _ _ _ _ hw hb]
  have h0 := offsetWithinLoop_nonneg rawOffset _ hL
  have h1 := offsetWithinLoop_lt rawOffset _ hL
  constructor <;> nlinarith

/-- Witness for C10 at slotWidth = 2, baseLength = 3, m = 3, rawOffset = 7. -/
theorem C10_middle_repetition_witness :
    -(((3:ℕ) : ℚ) * (((3:ℕ) : ℚ) * 2)) ≤ applyVisualOffset 2 3 3 7 ∧
    applyVisualOffset 2 3 3 7 < -((((3:ℕ) : ℚ) - 1) * (((3:ℕ) : ℚ) * 2)) :=
  C10_middle_repetition 2 3 3 7 (by norm_num) (by norm_num)

/-- C4: the easing function satisfies `ease 0 = 0` and `ease 1 = 1`, is
monotonically non-decreasing on `[0,1]`, lands in `[0,1]` for every input
(out-of-range inputs are clamped), equals `16*p^5` on `[0, 1/2)` and
`1 - (-2p+2)^5/2` on `[1/2, 1]`. -/
theorem C4_easing :
    mapProgressToDistance 0 = 0 ∧ mapProgressToDistance 1 = 1 ∧
    (∀ p q : ℚ, 0 ≤ p → p ≤ q → q ≤ 1 →
        mapProgressToDistance p ≤ mapProgressToDistance q) ∧
    (∀ p : ℚ, 0 ≤ mapProgressToDistance p ∧ mapProgressToDistance p ≤ 1) ∧
    (∀ p : ℚ, 0 ≤ p → p < 1/2 → mapProgressToDistance p = 16 * p ^ 5) ∧
    (∀ p : ℚ, 1/2 ≤ p → p ≤ 1 →
        mapProgressToDistance p = 1 - (-2 * p + 2) ^ 5 / 2) := by
  refine ⟨?_, ?_, ease_mono, ease_mem_unit, ease_eq_quintic_in, ease_eq_quintic_out⟩
  · unfold mapProgressToDistance
    norm_num
  · unfold mapProgressToDistance
    norm_num

/-- Witness for C4: monotonicity applied at 1/4 ≤ 3/4. -/
theorem C4_easing_witness :
    mapProgressToDistance (1/4) ≤ mapProgressToDistance (3/4) :=
  C4_easing.2.2.1 (1/4) (3/4) (by norm_num) (by norm_num) (by norm_num)

/-- C1: a spin request from idle while both the filtered pool and the full
catalog are empty is a silent no-op: spinning returns to false (Idle), the
winner is none, and no frame callback is scheduled (the model is a total
function, so no exception occurs). -/
theorem C1_empty_pool_noop {H : Type} (wb : Option H) (pf : Bool) (w : ℚ)
    (jf : ℕ → ℕ) (u1 u2 u3 uL : ℚ) :
    (spinRoulette false wb pf ([] : List H) [] w jf u1 u2 u3 uL).spinning = false ∧
    (spinRoulette false wb pf ([] : List H) [] w jf u1 u2 u3 uL).winner = none ∧
    (spinRoulette false wb pf ([] : List H) [] w jf u1 u2 u3 uL).scheduled = none :=
  ⟨rfl, rfl, rfl⟩

/-- C6: a `spin()` call made while the phase is Spinning is a silent no-op
(the outcome keeps the spinning flag, keeps the winner, cancels nothing and
schedules no second animation); and whenever a call does schedule a frame
callback, any previously pending frame callback was cancelled during that
same call, before the new one was scheduled. -/
theorem C6_single_frame_loop {H : Type} (wb : Option H) (pf : Bool)
    (activeHeroes heroes : List H) (w : ℚ) (jf : ℕ → ℕ) (u1 u2 u3 uL : ℚ) :
    (spinRoulette true wb pf activeHeroes heroes w jf u1 u2 u3 uL
        = { spinning := true, winner := wb, canceledPending := false,
            scheduled := none }) ∧
    (∀ s, (spinRoulette false wb pf activeHeroes heroes w jf u1 u2 u3 uL).scheduled
            = some s →
        (spinRoulette false wb pf activeHeroes heroes w jf u1 u2 u3 uL).canceledPending
            = pf) := by
  constructor
  · simp [spinRoulette]
  · intro s hs
    simp only [spinRoulette]
    rw [if_neg (by simp)]
    split <;> rfl

/-- Witness for C6: a spin from idle with a pending frame cancels it. -/
theorem C6_single_frame_loop_witness :
    (spinRoulette false none true ([] : List ℕ) [5] 1 (fun _ => 0)
        0 0 0 0).canceledPending = true :=
  (C6_single_frame_loop none true ([] : List ℕ) [5] 1 (fun _ => 0) 0 0 0 0).2
    ⟨[5], 0, 2, -3, -5, 11800, 1⟩ (by
      simp only [spinRoulette, rebuildPoolSource, shuffleList, fyLoop, pickRandomIndex]
      norm_num [middleRepeatIndex, REPEAT_COUNT, BASE_SPIN_DURATION,
        SPIN_DURATION_PER_LOOP])

theorem stepFrame_tick {H : Type} (s : SpinSetup H) (last : ℤ) (elapsed : ℚ) :
    (stepFrame s last elapsed).tick =
      (frameTick s.slotWidth s.pool.length last
        (s.startOffset + (s.finalOffset - s.startOffset)
          * mapProgressToDistance (min (elapsed / s.spinDuration) 1))
        (min (elapsed / s.spinDuration) 1)).1 := by
  simp only [stepFrame]
  split <;> rfl

theorem frameTick_speed (slotWidth : ℚ) (baseLength : ℕ) (last : ℤ)
    (currentOffset progress r : ℚ)
    (h : (frameTick slotWidth baseLength last currentOffset progress).1 = some r) :
    r = tickSpeed progress := by
  simp only [frameTick] at h
  split at h
  · split at h
    · simpa using h.symm
    · simp at h
  · simp at h

theorem tickSpeed_antitone (p q : ℚ) (h : p ≤ q) : tickSpeed q ≤ tickSpeed p :=
  max_le_max (le_refl _) (by linarith)

theorem tickSpeed_lb (p : ℚ) : 1/20 ≤ tickSpeed p := le_max_left _ _

/-- C7: every tick fired by a frame step carries the speed ratio
`max(0.05, 1 - progress)`; across any two frames of the same spin with
non-decreasing elapsed time the fired ratios are non-increasing; and every
fired ratio is at least 0.05, hence never exactly 0. -/
theorem C7_tick_decay {H : Type} (s : SpinSetup H) :
    (∀ (last : ℤ) (elapsed r : ℚ), (stepFrame s last elapsed).tick = some r →
        r = max (1/20 : ℚ) (1 - min (elapsed / s.spinDuration) 1)) ∧
    (∀ (e1 e2 : ℚ) (last1 last2 : ℤ) (r1 r2 : ℚ), 0 < s.spinDuration → e1 ≤ e2 →
        (stepFrame s last1 e1).tick = some r1 →
        (stepFrame s last2 e2).tick = some r2 → r2 ≤ r1) ∧
    (∀ (last : ℤ) (elapsed r : ℚ), (stepFrame s last elapsed).tick = some r →
        1/20 ≤ r ∧ r ≠ 0) := by
  have hval : ∀ (last : ℤ) (elapsed r : ℚ), (stepFrame s last elapsed).tick = some r →
      r = tickSpeed (min (elapsed / s.spinDuration) 1) := by
    intro last elapsed r h
    rw [stepFrame_tick] at h
    exact frameTick_speed _ _ _ _ _ _ h
  refine ⟨fun last e r h => hval last e r h, ?_, ?_⟩
  · intro e1 e2 last1 last2 r1 r2 hd h12 h1 h2
    rw [hval last1 e1 r1 h1, hval last2 e2 r2 h2]
    apply tickSpeed_antitone
    exact min_le_min ((div_le_div_iff_of_pos_right hd).mpr h12) (le_refl 1)
  · intro last e r h
    rw [hval last e r h]
    refine ⟨tickSpeed_lb _, ?_⟩
    have := tickSpeed_lb (min (e / s.spinDuration) 1)
    intro hzero
    rw [hzero] at this
    norm_num at this

/-- Witness for C7: a concrete first frame fires a tick of ratio 1,
which is at least 0.05 and non-zero. -/
theorem C7_tick_decay_witness :
    (1:ℚ)/20 ≤ 1 ∧ (1:ℚ) ≠ 0 :=
  (C7_tick_decay (⟨[()], 0, 2, -3, -5, 11800, 1⟩ : SpinSetup Unit)).2.2
    99 0 1 (by
      simp only [stepFrame, frameTick]
      norm_num [mapProgressToDistance, tickSpeed])

/-- C2: for every spin scheduled over a non-empty working pool, the selected
index lies in `[0, poolSize)`; when the pool has more than one element and
the anti-bias reroll fires (first draw hit index 0 and the reroll draw fell
below 0.35) the index lies in `[1, poolSize)`; the winner published at the
end of the spin is the candidate at that index of the freshly shuffled
working list, hence a member of the pre-spin pool; and a pool of size 1
always selects its single candidate. -/
theorem C2_selection {H : Type} (wb : Option H) (pf : Bool)
    (activeHeroes heroes : List H) (w : ℚ) (jf : ℕ → ℕ) (u1 u2 u3 uL : ℚ)
    (s : SpinSetup H)
    (h10 : 0 ≤ u1) (h11 : u1 < 1) (h30 : 0 ≤ u3) (h31 : u3 < 1)
    (hs : (spinRoulette false wb pf activeHeroes heroes w jf u1 u2 u3 uL).scheduled
            = some s) :
    s.randomIndex < s.pool.length ∧
    (1 < s.pool.length → (⌊u1 * (s.pool.length : ℚ)⌋).toNat = 0 → u2 < 35/100 →
        1 ≤ s.randomIndex) ∧
    (∀ x, s.pool.get? s.randomIndex = some x →
        x ∈ rebuildPoolSource activeHeroes heroes) ∧
    (∀ h0, rebuildPoolSource activeHeroes heroes = [h0] →
        s.pool.get? s.randomIndex = some h0) := by
  obtain ⟨hpool, hpos, hri, -, -, -, -, -⟩ :=
    spinRoulette_scheduled_spec wb pf activeHeroes heroes w jf u1 u2 u3 uL s hs
  refine ⟨?_, ?_, ?_, ?_⟩
  · rw [hri]
    exact pickRandomIndex_lt _ _ _ _ hpos h10 h11 h30 h31
  · intro hgt hz hp
    rw [hri]
    exact pickRandomIndex_reroll _ _ _ _ hgt hz hp
  · intro x hx
    have hmem : x ∈ s.pool := List.get?_mem hx
    rw [hpool] at hmem
    exact shuffleList_mem _ _ _ hmem
  · intro h0 hone
    rw [hri, hpool, hone, shuffleList_singleton]
    rw [show ([h0] : List H).length = 1 from rfl,
      pickRandomIndex_one u1 u2 u3 h10 h11]
    rfl

/-- Witness for C2: a one-element pool selects its single candidate. -/
theorem C2_selection_witness :
    ((⟨[5], 0, 2, -3, -5, 11800, 1⟩ : SpinSetup ℕ).randomIndex
        < (⟨[5], 0, 2, -3, -5, 11800, 1⟩ : SpinSetup ℕ).pool.length) ∧
    ((⟨[5], 0, 2, -3, -5, 11800, 1⟩ : SpinSetup ℕ).pool.get?
        (⟨[5], 0, 2, -3, -5, 11800, 1⟩ : SpinSetup ℕ).randomIndex = some 5) := by
  have h := C2_selection (H := ℕ) none false [] [5] 1 (fun _ => 0) 0 0 0 0
    ⟨[5], 0, 2, -3, -5, 11800, 1⟩ (by norm_num) (by norm_num) (by norm_num)
    (by norm_num)
    (by
      simp only [spinRoulette, rebuildPoolSource, shuffleList, fyLoop, pickRandomIndex]
      norm_num [middleRepeatIndex, REPEAT_COUNT, BASE_SPIN_DURATION,
        SPIN_DURATION_PER_LOOP])
  exact ⟨h.1, h.2.2.2 5 rfl⟩

/-- C3: on the first frame whose elapsed time reaches the spin duration
(progress = 1), the frame loop stops (`done`), the offset passed to the
visual layer is exactly `finalOffset`, the winner (the candidate at
`randomIndex` of the shuffled working list) is published, the controller
returns to Idle, and `finalOffset` equals
`-(middleRepeatIndex*poolSize + extraLoops*poolSize + randomIndex) * slotWidth`. -/
theorem C3_completion {H : Type} (wb : Option H) (pf : Bool)
    (activeHeroes heroes : List H) (w : ℚ) (jf : ℕ → ℕ) (u1 u2 u3 uL : ℚ)
    (s : SpinSetup H) (last : ℤ) (elapsed : ℚ)
    (hs : (spinRoulette false wb pf activeHeroes heroes w jf u1 u2 u3 uL).scheduled
            = some s)
    (he : s.spinDuration ≤ elapsed) :
    (stepFrame s last elapsed).done = true ∧
    (stepFrame s last elapsed).rawOffset = s.finalOffset ∧
    (stepFrame s last elapsed).winner = s.pool.get? s.randomIndex ∧
    (stepFrame s last elapsed).spinning = false ∧
    s.finalOffset = -(((middleRepeatIndex * s.pool.length
        + s.extraLoops * s.pool.length + s.randomIndex : ℕ) : ℚ) * s.slotWidth) := by
  obtain ⟨-, -, -, -, hdur, hsw, -, hfo⟩ :=
    spinRoulette_scheduled_spec wb pf activeHeroes heroes w jf u1 u2 u3 uL s hs
  have hdpos : 0 < s.spinDuration := by
    rw [hdur]
    unfold BASE_SPIN_DURATION SPIN_DURATION_PER_LOOP
    positivity
  have hprog : min (elapsed / s.spinDuration) 1 = 1 :=
    min_eq_right ((one_le_div hdpos).mpr he)
  simp only [stepFrame, hprog]
  rw [if_neg (lt_irrefl 1)]
  refine ⟨rfl, rfl, rfl, rfl, ?_⟩
  rw [hfo, hsw]

/-- Witness for C3: a concrete completed spin over the one-element catalog
`[7]` snaps to its final offset `-5` and publishes the winner `7`. -/
theorem C3_completion_witness :
    (stepFrame (⟨[7], 0, 2, -3, -5, 11800, 1⟩ : SpinSetup ℕ) (-1) 11800).done = true ∧
    (stepFrame (⟨[7], 0, 2, -3, -5, 11800, 1⟩ : SpinSetup ℕ) (-1) 11800).rawOffset
      = (⟨[7], 0, 2, -3, -5, 11800, 1⟩ : SpinSetup ℕ).finalOffset ∧
    (stepFrame (⟨[7], 0, 2, -3, -5, 11800, 1⟩ : SpinSetup ℕ) (-1) 11800).winner
      = (⟨[7], 0, 2, -3, -5, 11800, 1⟩ : SpinSetup ℕ).pool.get?
          (⟨[7], 0, 2, -3, -5, 11800, 1⟩ : SpinSetup ℕ).randomIndex ∧
    (stepFrame (⟨[7], 0, 2, -3, -5, 11800, 1⟩ : SpinSetup ℕ) (-1) 11800).spinning
      = false ∧
    (⟨[7], 0, 2, -3, -5, 11800, 1⟩ : SpinSetup ℕ).finalOffset
      = -(((middleRepeatIndex * (⟨[7], 0, 2, -3, -5, 11800, 1⟩ : SpinSetup ℕ).pool.length
          + (⟨[7], 0, 2, -3, -5, 11800, 1⟩ : SpinSetup ℕ).extraLoops
              * (⟨[7], 0, 2, -3, -5, 11800, 1⟩ : SpinSetup ℕ).pool.length
          + (⟨[7], 0, 2, -3, -5, 11800, 1⟩ : SpinSetup ℕ).randomIndex : ℕ) : ℚ)
          * (⟨[7], 0, 2, -3, -5, 11800, 1⟩ : SpinSetup ℕ).slotWidth) :=
  C3_completion none false [] [7] 1 (fun _ => 0) 0 0 0 0
    ⟨[7], 0, 2, -3, -5, 11800, 1⟩ (-1) 11800
    (by
      simp only [spinRoulette, rebuildPoolSource, shuffleList, fyLoop, pickRandomIndex]
      norm_num [middleRepeatIndex, REPEAT_COUNT, BASE_SPIN_DURATION,
        SPIN_DURATION_PER_LOOP])
    (by norm_num)

/-- C9: when the role/ban-filtered pool is empty, the pool rebuild effect,
`resetRoulette` and `spinRoulette` all commit the full hero catalog (freshly
shuffled) as the working pool; the spin proceeds and its winner comes from
the full catalog; the no-op exit is taken exactly when the full catalog
itself is empty. -/
theorem C9_full_catalog_fallback {H : Type} (wb : Option H) (pf : Bool)
    (heroes : List H) (w : ℚ) (jf : ℕ → ℕ) (u1 u2 u3 uL : ℚ) :
    rebuildPoolSource ([] : List H) heroes = heroes ∧
    (resetRoulette ([] : List H) heroes jf w).basePool = shuffleList jf heroes ∧
    ((spinRoulette false wb pf ([] : List H) heroes w jf u1 u2 u3 uL).scheduled = none
        ↔ heroes = []) ∧
    (∀ s, (spinRoulette false wb pf ([] : List H) heroes w jf u1 u2 u3 uL).scheduled
            = some s →
        s.pool = shuffleList jf heroes ∧
        ∀ x, s.pool.get? s.randomIndex = some x → x ∈ heroes) := by
  have hreb : rebuildPoolSource ([] : List H) heroes = heroes := rfl
  refine ⟨hreb, ?_, ?_, ?_⟩
  · simp only [resetRoulette, hreb]
  · constructor
    · intro hnone
      simp only [spinRoulette] at hnone
      rw [if_neg (by simp)] at hnone
      split at hnone
      · rename_i hcnt
        rw [hreb] at hcnt
        rw [shuffleList_length] at hcnt
        exact List.length_eq_zero.mp hcnt
      · simp at hnone
    · intro hempty
      subst hempty
      rfl
  · intro s hs
    obtain ⟨hpool, -, -, -, -, -, -, -⟩ :=
      spinRoulette_scheduled_spec wb pf _ heroes w jf u1 u2 u3 uL s hs
    rw [hreb] at hpool
    refine ⟨hpool, fun x hx => ?_⟩
    have hmem : x ∈ s.pool := List.get?_mem hx
    rw [hpool] at hmem
    exact shuffleList_mem _ _ _ hmem

/-- Witness for C9: with an empty filtered pool and catalog `[4]`, the spin
schedules an animation whose working pool is the (shuffled) full catalog. -/
theorem C9_full_catalog_fallback_witness :
    (⟨[4], 0, 2, -3, -5, 11800, 1⟩ : SpinSetup ℕ).pool
        = shuffleList (fun _ => 0) [4] ∧
    (4 : ℕ) ∈ ([4] : List ℕ) :=
  have h := (C9_full_catalog_fallback (H := ℕ) none false [4] 1 (fun _ => 0)
    0 0 0 0).2.2.2 ⟨[4], 0, 2, -3, -5, 11800, 1⟩
    (by
      simp only [spinRoulette, rebuildPoolSource, shuffleList, fyLoop, pickRandomIndex]
      norm_num [middleRepeatIndex, REPEAT_COUNT, BASE_SPIN_DURATION,
        SPIN_DURATION_PER_LOOP])
  ⟨h.1, h.2 4 rfl⟩
